import Mathlib

/-!
Shallow embedding of the C++ HTTP server repository (thread pool, HTTP
request/response codec, routing engine) together with proofs checking the
natural-language specification against the code.

The thread pool is embedded from `ThreadPool` (src/unnamed/part_011): the
shared state (`is_running_`, `threads_`, `tasks_`) becomes an explicit
record, the worker loop becomes a step function on that record, and task
execution is observed through an append-only log of executed task ids.
-/

namespace ThreadPool

/-- A task is identified by a natural number; executing a task appends its
id to the execution log. -/
abbrev Task := Nat

/-- State of a `ThreadPool` object: the `is_running_` flag, the size of the
`threads_` vector, the number of live (spawned, un-joined) worker threads,
the FIFO `tasks_` queue, and the log of executed tasks in execution order. -/
structure PoolState where
  is_running : Bool
  threads : Nat
  live : Nat
  tasks : List Task
  executed : List Task
deriving Repr, DecidableEq

/-- ThreadPool::start — early-returns when already running, otherwise sets
the running flag and spawns one worker per slot of the `threads_` vector. -/
def start (s : PoolState) : PoolState :=
  if s.is_running then s
  else { s with is_running := true, live := s.threads }

/-- ThreadPool::stop — early-returns when not running, otherwise clears the
running flag, wakes all workers and joins every thread. -/
def stop (s : PoolState) : PoolState :=
  if !s.is_running then s
  else { s with is_running := false, live := 0 }

/-- ThreadPool::enqueue — early-returns (discarding the task) when the pool
is not running, otherwise pushes the task at the back of the queue. -/
def enqueue (t : Task) (s : PoolState) : PoolState :=
  if !s.is_running then s
  else { s with tasks := s.tasks ++ [t] }

/-- ThreadPool::resize — coerces a requested size of 0 to 1; if the pool was
running, stops it, clears and resizes the thread vector, and starts again. -/
def resize (n : Nat) (s : PoolState) : PoolState :=
  let m := if n = 0 then 1 else n
  let was := s.is_running
  let s1 := if was then stop s else s
  let s2 := { s1 with threads := m }
  if was then start s2 else s2

/-- ThreadPool::ThreadPool(num_threads) — starts from a not-running empty
pool and calls `resize`. -/
def init (k : Nat) : PoolState :=
  resize k { is_running := false, threads := 0, live := 0, tasks := [], executed := [] }

/-- One iteration of ThreadPool::workerLoop under the queue mutex: if the
pool is stopped the worker exits (state unchanged); otherwise it dequeues
the front task, if any, and executes it (exceptions raised by the task are
swallowed, so execution always completes). -/
def workerStep (s : PoolState) : PoolState :=
  if !s.is_running then s
  else
    match s.tasks with
    | [] => s
    | t :: rest => { s with tasks := rest, executed := s.executed ++ [t] }

/-- Iterated worker execution: `fuel` bounded repetitions of `workerStep`,
modelling the workers repeatedly looping while the pool runs. -/
def workerRun : Nat → PoolState → PoolState
  | 0, s => s
  | n + 1, s => workerRun n (workerStep s)

/-- Enqueue a list of tasks in order (each call is one ThreadPool::enqueue). -/
def enqueueList (l : List Task) (s : PoolState) : PoolState :=
  l.foldl (fun s t => enqueue t s) s

end ThreadPool

/-!
Embedding of the HTTP response (include/http_response.h and
src/unnamed/part_010). C++ `std::string` values become `List Char`.
`headers_` is a `std::unordered_map`; its contents are embedded as an
association list with overwrite-on-assign semantics, using insertion order
as the (in C++ unspecified-but-stable) iteration order of serialization.
-/

/-- Byte strings of the C++ code, as lists of characters. -/
abbrev Str := List Char

/-- Map assignment `m[k] = v`: overwrite the existing entry or insert. -/
def setAssoc : List (Str × Str) → Str → Str → List (Str × Str)
  | [], k, v => [(k, v)]
  | (k', v') :: rest, k, v =>
      if k' = k then (k, v) :: rest else (k', v') :: setAssoc rest k v

/-- Map lookup `m.find(k)`. -/
def getAssoc : List (Str × Str) → Str → Option Str
  | [], _ => none
  | (k', v') :: rest, k => if k' = k then some v' else getAssoc rest k

/-- Enumerated HTTP status codes of HttpResponse::StatusCode. -/
inductive StatusCode where
  | OK | CREATED | NO_CONTENT | BAD_REQUEST | UNAUTHORIZED | FORBIDDEN
  | NOT_FOUND | METHOD_NOT_ALLOWED | INTERNAL_SERVER_ERROR | NOT_IMPLEMENTED
  | SERVICE_UNAVAILABLE
deriving Repr, DecidableEq

/-- Numeric value of each enumerator (static_cast<int> in toString). -/
def StatusCode.code : StatusCode → Nat
  | .OK => 200
  | .CREATED => 201
  | .NO_CONTENT => 204
  | .BAD_REQUEST => 400
  | .UNAUTHORIZED => 401
  | .FORBIDDEN => 403
  | .NOT_FOUND => 404
  | .METHOD_NOT_ALLOWED => 405
  | .INTERNAL_SERVER_ERROR => 500
  | .NOT_IMPLEMENTED => 501
  | .SERVICE_UNAVAILABLE => 503

/-- State of an HttpResponse object. -/
structure HttpResponse where
  status_code : StatusCode
  headers : List (Str × Str)
  body : Str
  version : Str
deriving Repr, DecidableEq

/-- HttpResponse::HttpResponse() — status OK, version "HTTP/1.1". -/
def HttpResponse.init : HttpResponse :=
  { status_code := .OK, headers := [], body := [], version := "HTTP/1.1".toList }

/-- HttpResponse::statusCodeToString — the fixed reason-phrase table. -/
def HttpResponse.statusCodeToString : StatusCode → Str
  | .OK => "OK".toList
  | .CREATED => "Created".toList
  | .NO_CONTENT => "No Content".toList
  | .BAD_REQUEST => "Bad Request".toList
  | .UNAUTHORIZED => "Unauthorized".toList
  | .FORBIDDEN => "Forbidden".toList
  | .NOT_FOUND => "Not Found".toList
  | .METHOD_NOT_ALLOWED => "Method Not Allowed".toList
  | .INTERNAL_SERVER_ERROR => "Internal Server Error".toList
  | .NOT_IMPLEMENTED => "Not Implemented".toList
  | .SERVICE_UNAVAILABLE => "Service Unavailable".toList

/-- HttpResponse::setHeader. -/
def HttpResponse.setHeader (r : HttpResponse) (name value : Str) : HttpResponse :=
  { r with headers := setAssoc r.headers name value }

/-- HttpResponse::getHeader — empty string when the header is absent. -/
def HttpResponse.getHeader (r : HttpResponse) (name : Str) : Str :=
  (getAssoc r.headers name).getD []

/-- HttpResponse::setContentLength — sets Content-Length from the current
body length (std::to_string of body_.length()). -/
def HttpResponse.setContentLength (r : HttpResponse) : HttpResponse :=
  r.setHeader "Content-Length".toList (Nat.repr r.body.length).toList

/-- HttpResponse::setBody — assigns the body and then calls
setContentLength(). -/
def HttpResponse.setBody (r : HttpResponse) (b : Str) : HttpResponse :=
  HttpResponse.setContentLength { r with body := b }

/-- HttpResponse::setStatusCode. -/
def HttpResponse.setStatusCode (r : HttpResponse) (c : StatusCode) : HttpResponse :=
  { r with status_code := c }

/-- HttpResponse::setTextContent — sets a text/plain Content-Type and the
body. -/
def HttpResponse.setTextContent (r : HttpResponse) (t : Str) : HttpResponse :=
  (r.setHeader "Content-Type".toList "text/plain; charset=utf-8".toList).setBody t

/-- HttpResponse::getMimeType — the fixed extension-to-MIME table, with
application/octet-stream for unknown extensions. -/
def HttpResponse.getMimeType (ext : Str) : Str :=
  if ext = "html".toList then "text/html".toList
  else if ext = "htm".toList then "text/html".toList
  else if ext = "css".toList then "text/css".toList
  else if ext = "js".toList then "application/javascript".toList
  else if ext = "json".toList then "application/json".toList
  else if ext = "xml".toList then "application/xml".toList
  else if ext = "txt".toList then "text/plain".toList
  else if ext = "png".toList then "image/png".toList
  else if ext = "jpg".toList then "image/jpeg".toList
  else if ext = "jpeg".toList then "image/jpeg".toList
  else if ext = "gif".toList then "image/gif".toList
  else if ext = "svg".toList then "image/svg+xml".toList
  else if ext = "ico".toList then "image/x-icon".toList
  else if ext = "pdf".toList then "application/pdf".toList
  else if ext = "zip".toList then "application/zip".toList
  else if ext = "mp4".toList then "video/mp4".toList
  else if ext = "mp3".toList then "audio/mpeg".toList
  else if ext = "wav".toList then "audio/wav".toList
  else if ext = "wasm".toList then "application/wasm".toList
  else "application/octet-stream".toList

/-- Carriage return + line feed. -/
def crlf : Str := ['\r', '\n']

/-- HttpResponse::toString — status line, then each stored header as
`Name: Value\r\n` in iteration order, a blank line, then the raw body. -/
def HttpResponse.toString (r : HttpResponse) : Str :=
  r.version ++ " ".toList ++ (Nat.repr r.status_code.code).toList ++ " ".toList
    ++ HttpResponse.statusCodeToString r.status_code ++ crlf
    ++ (r.headers.map (fun p => p.1 ++ ": ".toList ++ p.2 ++ crlf)).flatten
    ++ crlf ++ r.body

/-!
Embedding of the HTTP request parser (src/src/http_request.cpp). The
`std::istringstream` plumbing is embedded operation by operation:
`std::getline` with a delimiter, `operator>>` token extraction, and
`std::stoi(hex, nullptr, 16)` as used by urlDecode.
-/

/-- Whitespace of the classic C locale, as used by stream extraction and
strtol/stoi (space, tab, newline, vertical tab, form feed, carriage
return). -/
def isStreamSpace (c : Char) : Bool :=
  c = ' ' || c = '\t' || c = '\n' || c = '\x0b' || c = '\x0c' || c = '\r'

/-- Repeated std::getline with the given delimiter: yields the chunks
between delimiters; a final empty chunk after a trailing delimiter is not
yielded, because getline at end-of-stream fails. -/
def getlineAux (sep : Char) : List Char → List Char → List (List Char)
  | [], acc => [acc.reverse]
  | c :: cs, acc =>
      if c = sep then acc.reverse :: (if cs.isEmpty then [] else getlineAux sep cs [])
      else getlineAux sep cs (c :: acc)

/-- All lines std::getline yields from a stream over the given contents. -/
def getlineSplit (sep : Char) (s : List Char) : List (List Char) :=
  if s.isEmpty then [] else getlineAux sep s []

/-- Lines of the raw request, as read by std::getline(stream, line). -/
def splitLines (s : List Char) : List (List Char) := getlineSplit '\n' s

/-- Drop one trailing carriage return, as done on request and header lines
(if (!line.empty() && line.back() == CR) line.pop_back()). -/
def chompCR (l : List Char) : List Char :=
  if l.getLast? = some '\r' then l.dropLast else l

/-- Whitespace-separated tokens, as extracted by repeated `stream >> tok`. -/
def wordsAux : List Char → List Char → List (List Char)
  | [], acc => if acc.isEmpty then [] else [acc.reverse]
  | c :: cs, acc =>
      if isStreamSpace c then
        if acc.isEmpty then wordsAux cs [] else acc.reverse :: wordsAux cs []
      else wordsAux cs (c :: acc)

/-- Tokens of one line under stream extraction. -/
def words (l : List Char) : List (List Char) := wordsAux l []

/-- Space or tab, the characters trimmed from header names and values
(find_first_not_of and find_last_not_of with the two-character set). -/
def isBlankChar (c : Char) : Bool := c = ' ' || c = '\t'

/-- Trim leading and trailing spaces and tabs. -/
def trim (l : List Char) : List Char :=
  ((l.dropWhile isBlankChar).reverse.dropWhile isBlankChar).reverse

/-- Split a string at the first occurrence of a separator (std::string::find
plus the two substr calls); none when the separator does not occur. -/
def splitAtFirst (sep : Char) : List Char → Option (List Char × List Char)
  | [] => none
  | c :: cs =>
      if c = sep then some ([], cs)
      else (splitAtFirst sep cs).map (fun p => (c :: p.1, p.2))

/-- Hexadecimal digit test of strtol in base 16. -/
def isHexDigit (c : Char) : Bool :=
  (c.toNat ≥ 48 && c.toNat ≤ 57) || (c.toNat ≥ 97 && c.toNat ≤ 102)
    || (c.toNat ≥ 65 && c.toNat ≤ 70)

/-- Value of a hexadecimal digit. -/
def hexDigitVal (c : Char) : Nat :=
  if c.toNat ≤ 57 then c.toNat - 48
  else if c.toNat ≤ 70 then c.toNat - 55
  else c.toNat - 87

/-- std::stoi(s, nullptr, 16): skip classic-locale whitespace, accept an
optional sign and an optional 0x/0X prefix (the prefix only when a hex
digit follows), then read hex digits greedily; none (an exception in C++)
when no digit is read. -/
def stoi16 (s : List Char) : Option Int :=
  let s1 := s.dropWhile isStreamSpace
  let signed : Int × List Char :=
    match s1 with
    | '-' :: r => (-1, r)
    | '+' :: r => (1, r)
    | r => (1, r)
  let s3 := match signed.2 with
    | '0' :: x :: d :: r =>
        if (x = 'x' || x = 'X') && isHexDigit d then d :: r else signed.2
    | _ => signed.2
  let digits := s3.takeWhile isHexDigit
  if digits.isEmpty then none
  else some (signed.1 * (digits.foldl (fun a c => a * 16 + hexDigitVal c) 0 : Nat))

/-- static_cast<char> of the decoded int, as an unsigned byte. -/
def byteChar (v : Int) : Char := Char.ofNat (v.emod 256).toNat

/-- HttpRequest::urlDecode — a '%' followed by at least two characters
consumes them as a hex escape when stoi succeeds and otherwise copies the
'%' through; '+' decodes to a space; everything else is copied. -/
def urlDecode : List Char → List Char
  | [] => []
  | '%' :: a :: b :: rest =>
      match stoi16 [a, b] with
      | some v => byteChar v :: urlDecode rest
      | none => '%' :: urlDecode (a :: b :: rest)
  | '+' :: rest => ' ' :: urlDecode rest
  | c :: rest => c :: urlDecode rest

/-- Enumerated HTTP methods of HttpRequest::Method. -/
inductive Method where
  | GET | POST | PUT | DELETE | HEAD | OPTIONS | PATCH | UNKNOWN
deriving Repr, DecidableEq

/-- HttpRequest::stringToMethod — uppercases (::toupper on each character)
and compares against the seven method names. -/
def stringToMethod (m : Str) : Method :=
  let u := m.map Char.toUpper
  if u = "GET".toList then .GET
  else if u = "POST".toList then .POST
  else if u = "PUT".toList then .PUT
  else if u = "DELETE".toList then .DELETE
  else if u = "HEAD".toList then .HEAD
  else if u = "OPTIONS".toList then .OPTIONS
  else if u = "PATCH".toList then .PATCH
  else .UNKNOWN

/-- HttpRequest::parseQueryParams — split the query string on '&'; each
chunk splits at the first '=' (missing '=' gives an empty value); names and
values are percent-decoded; duplicate names overwrite. -/
def parseQueryParams (qs : Str) : List (Str × Str) :=
  (getlineSplit '&' qs).foldl
    (fun m pair =>
      match splitAtFirst '=' pair with
      | some (k, v) => setAssoc m (urlDecode k) (urlDecode v)
      | none => setAssoc m (urlDecode pair) [])
    []

/-- HttpRequest::parseHeaders — each line splits at the first ':'; name and
value are trimmed of spaces and tabs; lines without ':' are skipped;
duplicate names overwrite. -/
def parseHeaders (lines : List Str) : List (Str × Str) :=
  lines.foldl
    (fun m line =>
      match splitAtFirst ':' line with
      | some (n, v) => setAssoc m (trim n) (trim v)
      | none => m)
    []

/-- Header-reading loop of HttpRequest::parse: consume lines (CR-stripped)
until an empty line; the remaining lines are the body lines. -/
def takeHeaderLines : List Str → (List Str × List Str)
  | [] => ([], [])
  | l :: ls =>
      let c := chompCR l
      if c.isEmpty then ([], ls)
      else
        let r := takeHeaderLines ls
        (c :: r.1, r.2)

/-- Body assembly of HttpRequest::parse: each remaining line followed by a
single newline, with one trailing newline stripped if present. -/
def joinBody (lines : List Str) : Str :=
  let b := (lines.map (fun l => l ++ ['\n'])).flatten
  if b.getLast? = some '\n' then b.dropLast else b

/-- State of an HttpRequest object. -/
structure HttpRequest where
  method : Method
  path : Str
  version : Str
  headers : List (Str × Str)
  query_params : List (Str × Str)
  body : Str
  is_valid : Bool
deriving Repr, DecidableEq

/-- HttpRequest::HttpRequest() — method UNKNOWN, version "HTTP/1.1",
everything else empty, not valid. -/
def HttpRequest.init : HttpRequest :=
  { method := .UNKNOWN, path := [], version := "HTTP/1.1".toList,
    headers := [], query_params := [], body := [], is_valid := false }

/-- HttpRequest::parse as invoked by the converting constructor on a fresh
object: empty input, failure to extract three tokens from the first line,
or a version not starting with "HTTP/" abort the parse and leave every
field at its constructor default; otherwise the fields are filled in. -/
def HttpRequest.parse (raw : Str) : HttpRequest :=
  if raw.isEmpty then HttpRequest.init
  else
    match splitLines raw with
    | [] => HttpRequest.init
    | first :: rest =>
      let line := chompCR first
      match words line with
      | m :: p :: v :: _ =>
        if m.isEmpty || p.isEmpty || v.isEmpty then HttpRequest.init
        else if "HTTP/".toList.isPrefixOf v then
          let pq := splitAtFirst '?' p
          let path0 := match pq with | none => p | some q => q.1
          let qps := match pq with | none => [] | some q => parseQueryParams q.2
          let hb := takeHeaderLines rest
          { method := stringToMethod m, path := urlDecode path0, version := v,
            headers := parseHeaders hb.1, query_params := qps,
            body := joinBody hb.2, is_valid := true }
        else HttpRequest.init
      | _ => HttpRequest.init

/-- First line the parser reads from the raw input. -/
def firstLineOf (raw : Str) : Str :=
  match splitLines raw with
  | [] => []
  | l :: _ => l

/-- Characters on which urlDecode can act: a string with no '%' and no '+'
decodes to itself. -/
def noPctPlus (l : Str) : Bool := l.all (fun c => !(c == '%') && !(c == '+'))

/-!
Embedding of the routing and middleware engine (src/unnamed/part_012 and
include/http_server.h). User handlers mutate the response and may throw;
thrown failures are embedded as `Except.error` values carrying the message
and the response as mutated up to the throw, matching catch-by-reference
semantics in processHttpRequest.
-/

/-- Match of one translated regex atom against one character: '.' matches
any character, every other character only itself. -/
def charAtomMatch (a c : Char) : Bool := a = '.' || a = c

/-- Character-by-character match of a list of regex atoms (literals and
'.') against a string of the same length. -/
def literalDotMatch : List Char → List Char → Bool
  | [], [] => true
  | a :: as, c :: cs => charAtomMatch a c && literalDotMatch as cs
  | _, _ => false

/-- The fourteen characters with special meaning in ECMAScript regex
syntax; every other character is a literal atom. -/
def isRegexSpecial (c : Char) : Bool :=
  c = '\\' || c = '^' || c = '$' || c = '.' || c = '|' || c = '?' || c = '*'
    || c = '+' || c = '(' || c = ')' || c = '[' || c = ']' || c = '\x7b' || c = '\x7d'

/-- A character that an ECMAScript regex treats as a literal atom. -/
def regexPlainChar (c : Char) : Bool := !(isRegexSpecial c)

/-- std::regex_match of a path against a translated pattern of the shape
produced by matchRoute from a route pattern whose characters are
regex-literal apart from its wildcards: such a translated pattern is a
sequence of atoms that are literals or '.', with one '*' appended, and in
ECMAScript syntax that '*' stars the final atom — the path must match all
atoms but the last exactly, followed by zero or more repetitions of the
last atom. The embedding covers exactly this metacharacter-free fragment
(the fragment every concrete input below lies in); quantifier, group,
class, anchor and alternation semantics of patterns containing other
special characters, and the regex_error case, are outside it, so every
general statement about matchRoute on wildcard patterns carries a
`regexPlainChar` hypothesis on the rest of the pattern. -/
def regexStarMatch (t p : Str) : Bool :=
  match t.getLast? with
  | none => p.isEmpty
  | some a =>
      literalDotMatch t.dropLast (p.take t.dropLast.length)
        && (p.drop t.dropLast.length).all (charAtomMatch a)

/-- HttpServer::matchRoute — exact string equality, else, when the pattern
contains a '*', build a regex by replacing every '*' with '.' and appending
one '*', and regex-match the whole path; patterns without '*' otherwise
never match. The regex branch is embedded by `regexStarMatch` and is
faithful for patterns whose non-wildcard characters are regex-literal
(`regexPlainChar`); for patterns containing other regex metacharacters the
C++ applies full ECMAScript semantics (or returns false through the
catch of regex_error on an invalid translation), which this fragment
embedding does not cover. -/
def matchRoute (pattern path : Str) : Bool :=
  if pattern = path then true
  else if pattern.contains '*' then
    regexStarMatch (pattern.map (fun c => if c = '*' then '.' else c)) path
  else false

/-- Modelled from the spec: wildcard pattern matching in which every '*'
stands for an arbitrary sequence of characters and the whole path must
match — the reading of route patterns that claim C3 asserts. Used only for
comparison against `matchRoute`. -/
def globMatch : List Char → List Char → Bool
  | [], p => p.isEmpty
  | '*' :: ps, p => p.tails.any (globMatch ps)
  | _ :: _, [] => false
  | c :: ps, x :: xs => (c = x) && globMatch ps xs

/-- Result of a user handler: the new response, or a thrown failure
carrying the message and the response as mutated before the throw. -/
abbrev HandlerExcept := Except (Str × HttpResponse)

/-- HttpServer::RequestHandler. -/
abbrev RequestHandler := HttpRequest → HttpResponse → HandlerExcept HttpResponse

/-- HttpServer::MiddlewareFunction — mutates the response and returns the
continue flag. -/
abbrev MiddlewareFunction := HttpRequest → HttpResponse → HandlerExcept (HttpResponse × Bool)

/-- One routing-table entry (HttpServer::Route). -/
structure Route where
  method : Method
  path : Str
  handler : RequestHandler
  is_regex : Bool

/-- HttpServer::route — appends to the route table, flagging patterns that
contain '*' or '('. -/
def registerRoute (routes : List Route) (m : Method) (path : Str)
    (h : RequestHandler) : List Route :=
  routes ++ [{ method := m, path := path, handler := h,
               is_regex := path.contains '*' || path.contains '(' }]

/-- Routing-relevant state of an HttpServer: middleware chain, static
mappings with a filesystem oracle, route table and the two configurable
handlers. -/
structure ServerConfig where
  middlewares : List MiddlewareFunction
  static_paths : List (Str × Str)
  fs : Str → Option Str
  routes : List Route
  not_found : RequestHandler
  error_handler : Str → HttpRequest → HttpResponse → HttpResponse

/-- HttpServer::runMiddlewares — run each middleware in order, stopping at
the first one that returns false (or throws). -/
def runMiddlewares : List MiddlewareFunction → HttpRequest → HttpResponse →
    HandlerExcept (HttpResponse × Bool)
  | [], _, res => .ok (res, true)
  | mw :: rest, req, res =>
      match mw req res with
      | .error e => .error e
      | .ok (res1, cont) =>
          if cont then runMiddlewares rest req res1 else .ok (res1, false)

/-- File extension after the last '.' (find_last_of), empty when there is
no dot. -/
def extensionOf (p : Str) : Str :=
  match splitAtFirst '.' p.reverse with
  | none => []
  | some q => q.1.reverse

/-- HttpServer::handleStaticFile together with HttpResponse::setFileContent:
a missing file yields NOT_FOUND with a plain-text body; a found file yields
its bytes with the MIME type derived from the extension. -/
def handleStaticFile (fs : Str → Option Str) (file_path : Str)
    (res : HttpResponse) : HttpResponse :=
  match fs file_path with
  | none => (res.setStatusCode .NOT_FOUND).setTextContent "File not found".toList
  | some content =>
      (res.setHeader "Content-Type".toList
        (HttpResponse.getMimeType (extensionOf file_path))).setBody content

/-- Static-mapping scan of processHttpRequest: first entry whose prefix
starts the request path. -/
def findStatic : List (Str × Str) → Str → Option (Str × Str)
  | [], _ => none
  | (pre, dir) :: rest, path =>
      if pre.isPrefixOf path then some (pre, dir) else findStatic rest path

/-- Dispatch condition of the route scan in processHttpRequest (the route's
method equals the request method, or the route's method is OPTIONS). -/
def routeConsidered (r : Route) (req : HttpRequest) : Bool :=
  r.method == req.method || r.method == Method.OPTIONS

/-- Route scan of processHttpRequest: first registered route whose method
condition holds and whose pattern matches the path. -/
def findRoute (routes : List Route) (req : HttpRequest) : Option Route :=
  routes.find? (fun r => routeConsidered r req && matchRoute r.path req.path)

/-- Modelled from the spec: the dispatch condition claim C4 asserts — the
methods are equal, or the route is an OPTIONS route and the request method
is registered to the same path pattern. Used only for comparison against
`routeConsidered`. -/
def specConsidered (routes : List Route) (r : Route) (req : HttpRequest) : Bool :=
  r.method == req.method ||
    (r.method == Method.OPTIONS &&
      routes.any (fun r2 => r2.path == r.path && r2.method == req.method))

/-- Body of HttpServer::processHttpRequest inside the try block: middleware
chain (a false return sends the response as mutated so far), then static
mappings, then the route scan, then the not-found handler. -/
def processHttpRequestE (cfg : ServerConfig) (req : HttpRequest)
    (res : HttpResponse) : HandlerExcept HttpResponse :=
  match runMiddlewares cfg.middlewares req res with
  | .error e => .error e
  | .ok (res1, cont) =>
      if !cont then .ok res1
      else
        match findStatic cfg.static_paths req.path with
        | some (pre, dir) =>
            .ok (handleStaticFile cfg.fs (dir ++ req.path.drop pre.length) res1)
        | none =>
            match findRoute cfg.routes req with
            | some r => r.handler req res1
            | none => cfg.not_found req res1

/-- HttpServer::processHttpRequest — the try/catch wrapper: a thrown
failure is passed to the configured error handler with the request and the
(mutated) response. -/
def processHttpRequest (cfg : ServerConfig) (req : HttpRequest)
    (res : HttpResponse) : HttpResponse :=
  match processHttpRequestE cfg req res with
  | .ok r => r
  | .error (e, resT) => cfg.error_handler e req resT

/-- HttpServer::defaultNotFoundHandler. -/
def defaultNotFoundHandler (req : HttpRequest) (res : HttpResponse) : HttpResponse :=
  (res.setStatusCode .NOT_FOUND).setTextContent ("404 Not Found: ".toList ++ req.path)

/-- HttpServer::defaultErrorHandler — logs, then INTERNAL_SERVER_ERROR with
a plain-text body. -/
def defaultErrorHandler (e : Str) (req : HttpRequest) (res : HttpResponse) : HttpResponse :=
  (res.setStatusCode .INTERNAL_SERVER_ERROR).setTextContent "Internal Server Error".toList

/-- Concrete OPTIONS-route handler used to observe dispatch. -/
def optHandler : RequestHandler :=
  fun _ res => .ok (res.setTextContent "options route ran".toList)

/-- An OPTIONS route on /x. -/
def optRoute : Route :=
  { method := Method.OPTIONS, path := "/x".toList,
    handler := optHandler, is_regex := false }

/-- Server with a single OPTIONS route on /x and default handlers. -/
def cfgC4 : ServerConfig :=
  { middlewares := [], static_paths := [], fs := fun _ => none,
    routes := [optRoute],
    not_found := fun req res => .ok (defaultNotFoundHandler req res),
    error_handler := defaultErrorHandler }

/-- A GET request for /x. -/
def reqGetX : HttpRequest :=
  { method := .GET, path := "/x".toList, version := "HTTP/1.1".toList,
    headers := [], query_params := [], body := [], is_valid := true }

/-- Middleware that throws. -/
def failingMw : MiddlewareFunction :=
  fun _ res => .error ("handler failure".toList, res)

/-- Server whose only middleware throws, with default handlers. -/
def cfgC8 : ServerConfig :=
  { middlewares := [failingMw], static_paths := [], fs := fun _ => none,
    routes := [],
    not_found := fun req res => .ok (defaultNotFoundHandler req res),
    error_handler := defaultErrorHandler }

namespace ThreadPool

theorem enqueue_not_running (t : Task) (s : PoolState) (h : s.is_running = false) :
    enqueue t s = s := by
  simp [enqueue, h]

theorem enqueueList_not_running (l : List Task) (s : PoolState) (h : s.is_running = false) :
    enqueueList l s = s := by
  induction l with
  | nil => rfl
  | cons t l ih =>
    simp only [enqueueList, List.foldl_cons] at *
    rw [enqueue_not_running t s h, ih]

theorem enqueue_running (t : Task) (s : PoolState) (h : s.is_running = true) :
    enqueue t s = { s with tasks := s.tasks ++ [t] } := by
  simp [enqueue, h]

theorem enqueueList_running (l : List Task) :
    ∀ s : PoolState, s.is_running = true →
      enqueueList l s = { s with tasks := s.tasks ++ l } := by
  induction l with
  | nil => intro s h; simp [enqueueList]
  | cons t l ih =>
    intro s h
    simp only [enqueueList, List.foldl_cons] at *
    rw [enqueue_running t s h]
    rw [ih { s with tasks := s.tasks ++ [t] } h]
    simp

theorem workerRun_drain (q : List Task) :
    ∀ s : PoolState, s.is_running = true → s.tasks = q →
      workerRun q.length s =
        { s with tasks := [], executed := s.executed ++ q } := by
  induction q with
  | nil =>
    intro s h hq
    simp only [List.length_nil, workerRun]
    cases s
    simp_all
  | cons t r ih =>
    intro s h hq
    simp only [List.length_cons, workerRun]
    have hstep : workerStep s = { s with tasks := r, executed := s.executed ++ [t] } := by
      simp [workerStep, h, hq]
    rw [hstep]
    rw [ih { s with tasks := r, executed := s.executed ++ [t] } h rfl]
    simp

theorem init_spec (k : Nat) :
    init k = { is_running := false, threads := if k = 0 then 1 else k,
               live := 0, tasks := [], executed := [] } := by
  simp [init, resize, stop, start]

end ThreadPool

/-- C1: the claim states that N tasks enqueued on a ThreadPool before
start() are all eventually executed once start() is called (N=10, K=4
converging to counter 10). This is false on the code: enqueue early-returns
while the pool is not running, so all ten tasks are discarded; after
start() the queue is empty, nothing was executed, and the started state is
a fixed point of the worker step, so no execution ever happens. -/
theorem claim_C1_counterexample :
    (ThreadPool.start (ThreadPool.enqueueList (List.range 10) (ThreadPool.init 4))).tasks
        = [] ∧
    (ThreadPool.start (ThreadPool.enqueueList (List.range 10) (ThreadPool.init 4))).executed
        = [] ∧
    ThreadPool.workerStep
        (ThreadPool.start (ThreadPool.enqueueList (List.range 10) (ThreadPool.init 4)))
      = ThreadPool.start (ThreadPool.enqueueList (List.range 10) (ThreadPool.init 4)) ∧
    (ThreadPool.workerRun 10
        (ThreadPool.start (ThreadPool.enqueueList (List.range 10) (ThreadPool.init 4)))).executed
      ≠ List.range 10 := by
  decide

/-- C1 (amended): tasks enqueued before start() are discarded (enqueue on a
non-running pool is a no-op), so starting executes none of them; tasks
enqueued while the pool is running are all retained and a drain of the
queue executes every one of the N tasks exactly once. -/
theorem claim_C1_amended (K N : Nat) (hK : 1 ≤ K) :
    ThreadPool.enqueueList (List.range N) (ThreadPool.init K) = ThreadPool.init K ∧
    (ThreadPool.workerRun N
        (ThreadPool.enqueueList (List.range N)
          (ThreadPool.start (ThreadPool.init K)))).executed = List.range N ∧
    (ThreadPool.workerRun N
        (ThreadPool.enqueueList (List.range N)
          (ThreadPool.start (ThreadPool.init K)))).tasks = [] ∧
    ∀ t : ThreadPool.Task, t < N →
      (ThreadPool.workerRun N
          (ThreadPool.enqueueList (List.range N)
            (ThreadPool.start (ThreadPool.init K)))).executed.count t = 1 := by
  have hKne : K ≠ 0 := Nat.one_le_iff_ne_zero.mp hK
  have hinit := ThreadPool.init_spec K
  rw [if_neg hKne] at hinit
  have hdrop : ThreadPool.enqueueList (List.range N) (ThreadPool.init K)
      = ThreadPool.init K := by
    apply ThreadPool.enqueueList_not_running
    rw [hinit]
  have hstart : ThreadPool.start (ThreadPool.init K)
      = { is_running := true, threads := K, live := K, tasks := [], executed := [] } := by
    rw [hinit]; rfl
  have henq : ThreadPool.enqueueList (List.range N) (ThreadPool.start (ThreadPool.init K))
      = { is_running := true, threads := K, live := K,
          tasks := List.range N, executed := [] } := by
    rw [hstart, ThreadPool.enqueueList_running (List.range N) _ rfl]
    simp
  have hlen : (List.range N).length = N := List.length_range N
  have hdrain := ThreadPool.workerRun_drain (List.range N)
      { is_running := true, threads := K, live := K,
        tasks := List.range N, executed := [] } rfl rfl
  rw [hlen] at hdrain
  refine ⟨hdrop, ?_, ?_, ?_⟩
  · rw [henq, hdrain]; simp
  · rw [henq, hdrain]
  · intro t ht
    rw [henq, hdrain]
    simp only [List.nil_append]
    exact List.count_eq_one_of_mem (List.nodup_range N) (List.mem_range.mpr ht)

/-- Witness for C1 (amended) at K = 4, N = 10: the ten tasks enqueued on
the running pool are executed in order, matching the spec's counter of 10. -/
theorem claim_C1_amended_witness :
    (1 : Nat) ≤ 4 ∧
    (ThreadPool.workerRun 10
        (ThreadPool.enqueueList (List.range 10)
          (ThreadPool.start (ThreadPool.init 4)))).executed = List.range 10 :=
  ⟨by decide, (claim_C1_amended 4 10 (by decide)).2.1⟩

/-- C7: enqueue(task) adds the task to the shared queue if and only if the
pool is currently running; a task enqueued while the pool is not running
leaves the state entirely unchanged, so it is discarded, never executed,
and not retained past a later restart (any worker run after a restart
executes exactly what it would have executed without the enqueue). -/
theorem claim_C7 (s : ThreadPool.PoolState) (t : ThreadPool.Task) :
    (s.is_running = true →
      ThreadPool.enqueue t s = { s with tasks := s.tasks ++ [t] }) ∧
    (s.is_running = false →
      ThreadPool.enqueue t s = s ∧
      ∀ fuel : Nat,
        (ThreadPool.workerRun fuel (ThreadPool.start (ThreadPool.enqueue t s))).executed
          = (ThreadPool.workerRun fuel (ThreadPool.start s)).executed) := by
  constructor
  · intro h
    exact ThreadPool.enqueue_running t s h
  · intro h
    have he : ThreadPool.enqueue t s = s := ThreadPool.enqueue_not_running t s h
    exact ⟨he, fun fuel => by rw [he]⟩

/-- Witness for C7 at two concrete states, one running and one stopped. -/
theorem claim_C7_witness :
    ThreadPool.enqueue 5
        { is_running := true, threads := 2, live := 2, tasks := [9], executed := [] }
      = { is_running := true, threads := 2, live := 2, tasks := [9, 5], executed := [] } ∧
    ThreadPool.enqueue 7
        { is_running := false, threads := 2, live := 0, tasks := [], executed := [] }
      = { is_running := false, threads := 2, live := 0, tasks := [], executed := [] } :=
  ⟨(claim_C7 { is_running := true, threads := 2, live := 2, tasks := [9], executed := [] } 5).1 rfl,
   ((claim_C7 { is_running := false, threads := 2, live := 0, tasks := [], executed := [] } 7).2 rfl).1⟩

/-- C9: resize coerces a requested size of 0 to 1, and resizing a running
pool is exactly stop-then-start around changing the thread count, leaving
the requested number of live workers and the pool still running. -/
theorem claim_C9 (s : ThreadPool.PoolState) (n : Nat) :
    (ThreadPool.resize 0 s).threads = 1 ∧
    (s.is_running = true →
      ThreadPool.resize n s
        = ThreadPool.start { ThreadPool.stop s with threads := if n = 0 then 1 else n } ∧
      (ThreadPool.resize n s).live = (if n = 0 then 1 else n) ∧
      (ThreadPool.resize n s).threads = (if n = 0 then 1 else n) ∧
      (ThreadPool.resize n s).is_running = true) := by
  constructor
  · cases h : s.is_running <;> simp [ThreadPool.resize, ThreadPool.stop, ThreadPool.start, h]
  · intro h
    refine ⟨?_, ?_, ?_, ?_⟩ <;>
      simp [ThreadPool.resize, ThreadPool.stop, ThreadPool.start, h]

/-- Witness for C9 at a concrete running pool, resized from 3 to 2 and to 0. -/
theorem claim_C9_witness :
    (ThreadPool.resize 0
        { is_running := true, threads := 3, live := 3, tasks := [1], executed := [] }).threads
      = 1 ∧
    (ThreadPool.resize 2
        { is_running := true, threads := 3, live := 3, tasks := [1], executed := [] }).live
      = 2 :=
  ⟨(claim_C9 { is_running := true, threads := 3, live := 3, tasks := [1], executed := [] } 0).1,
   by
    have h := ((claim_C9 { is_running := true, threads := 3, live := 3, tasks := [1], executed := [] } 2).2 rfl).2.1
    simpa using h⟩

/-- C10: stop() leaves the task queue and the execution log unchanged, and
after a subsequent start() a drain of the queue executes exactly the tasks
that were retained in it, in order. -/
theorem claim_C10 (s : ThreadPool.PoolState) :
    (ThreadPool.stop s).tasks = s.tasks ∧
    (ThreadPool.stop s).executed = s.executed ∧
    (ThreadPool.workerRun s.tasks.length
        (ThreadPool.start (ThreadPool.stop s))).executed = s.executed ++ s.tasks ∧
    (ThreadPool.workerRun s.tasks.length
        (ThreadPool.start (ThreadPool.stop s))).tasks = [] := by
  obtain ⟨r, th, lv, tk, ex⟩ := s
  have hstart : ThreadPool.start (ThreadPool.stop ⟨r, th, lv, tk, ex⟩)
      = ⟨true, th, th, tk, ex⟩ := by
    cases r <;> simp [ThreadPool.stop, ThreadPool.start]
  have hdrain := ThreadPool.workerRun_drain tk (⟨true, th, th, tk, ex⟩ : ThreadPool.PoolState) rfl rfl
  refine ⟨?_, ?_, ?_, ?_⟩
  · cases r <;> simp [ThreadPool.stop]
  · cases r <;> simp [ThreadPool.stop]
  · show (ThreadPool.workerRun tk.length (ThreadPool.start (ThreadPool.stop ⟨r, th, lv, tk, ex⟩))).executed = ex ++ tk
    rw [hstart, hdrain]
  · show (ThreadPool.workerRun tk.length (ThreadPool.start (ThreadPool.stop ⟨r, th, lv, tk, ex⟩))).tasks = []
    rw [hstart, hdrain]

theorem getAssoc_setAssoc_self (m : List (Str × Str)) (k v : Str) :
    getAssoc (setAssoc m k v) k = some v := by
  induction m with
  | nil => simp [setAssoc, getAssoc]
  | cons p rest ih =>
    by_cases h : p.1 = k
    · simp [setAssoc, getAssoc, h]
    · simp [setAssoc, getAssoc, h, ih]

/-- C2: the claim states that serialization never sees an automatically
computed Content-Length: the header in toString() is whatever the caller
last set. This is false on the code: HttpResponse::setBody calls
setContentLength(), which overwrites a caller-set Content-Length with the
live body length, and toString() serializes that overwritten value. -/
theorem claim_C2_counterexample :
    ((HttpResponse.init.setHeader "Content-Length".toList "3".toList).setBody "hello".toList).getHeader "Content-Length".toList = "5".toList ∧
    ¬ ((HttpResponse.init.setHeader "Content-Length".toList "3".toList).setBody "hello".toList).getHeader "Content-Length".toList = "3".toList ∧
    ((HttpResponse.init.setHeader "Content-Length".toList "3".toList).setBody "hello".toList).toString
      = "HTTP/1.1 200 OK\r\nContent-Length: 5\r\n\r\nhello".toList := by
  decide

/-- C2 (amended): setBody automatically recomputes the Content-Length
header from the new body length (so it is never stale after a setBody);
toString itself performs no recomputation, it serializes the stored
headers. -/
theorem claim_C2_amended (r : HttpResponse) (b : Str) :
    (r.setBody b).getHeader "Content-Length".toList = (Nat.repr b.length).toList ∧
    (r.setBody b).body = b := by
  constructor
  · simp only [HttpResponse.setBody, HttpResponse.setContentLength, HttpResponse.setHeader,
      HttpResponse.getHeader]
    rw [getAssoc_setAssoc_self]
    rfl
  · simp [HttpResponse.setBody, HttpResponse.setContentLength, HttpResponse.setHeader]

/-- C5: the claim states that empty input, or a first line that does not
split into exactly three tokens, leaves every field at a default in which
the version is empty. This is false on the code twice over: the default
version is "HTTP/1.1", not empty, and a first line with more than three
tokens parses successfully (extraction reads the first three tokens and
ignores the rest). -/
theorem claim_C5_counterexample :
    (HttpRequest.parse []).version = "HTTP/1.1".toList ∧
    (HttpRequest.parse []).version ≠ [] ∧
    (HttpRequest.parse "GET / HTTP/1.1 extra\r\n\r\n".toList).is_valid = true := by
  decide

/-- C5 (amended): for empty input, or a first line from which fewer than
three whitespace-separated tokens can be extracted, parse marks the
request invalid and leaves every field at its constructor default: method
UNKNOWN; path, body, headers and query parameters empty; version
"HTTP/1.1". -/
theorem claim_C5_amended (raw : Str)
    (h : raw = [] ∨ (words (chompCR (firstLineOf raw))).length < 3) :
    HttpRequest.parse raw = HttpRequest.init := by
  rcases h with h | h
  · subst h; rfl
  · cases hraw : raw.isEmpty with
    | true => simp [HttpRequest.parse, hraw]
    | false =>
      unfold firstLineOf at h
      cases hsl : splitLines raw with
      | nil => simp [HttpRequest.parse, hraw, hsl]
      | cons first rest =>
        rw [hsl] at h
        cases hws : words (chompCR first) with
        | nil => simp [HttpRequest.parse, hraw, hsl, hws]
        | cons a t1 =>
          cases t1 with
          | nil => simp [HttpRequest.parse, hraw, hsl, hws]
          | cons b t2 =>
            cases t2 with
            | nil => simp [HttpRequest.parse, hraw, hsl, hws]
            | cons c t3 =>
              rw [hws] at h
              simp only [List.length_cons] at h
              omega

/-- Witness for C5 (amended): a request line with two tokens parses to the
default request. -/
theorem claim_C5_amended_witness :
    HttpRequest.parse "GET /\r\n".toList = HttpRequest.init :=
  claim_C5_amended ("GET /\r\n".toList) (Or.inr (by decide))

/-- C6: the claim states that urlDecode is idempotent on every output of
urlDecode. This is false on the code: "%2B" decodes to "+", which is an
output of decoding, and decoding it again yields " ". -/
theorem claim_C6_counterexample :
    urlDecode "%2B".toList = "+".toList ∧
    urlDecode (urlDecode "%2B".toList) ≠ urlDecode "%2B".toList := by
  decide

theorem urlDecode_cons_other (c : Char) (cs : List Char) (hc1 : c ≠ '%') (hc2 : c ≠ '+') :
    urlDecode (c :: cs) = c :: urlDecode cs := by
  cases cs with
  | nil => simp [urlDecode, hc1, hc2]
  | cons a t =>
    cases t with
    | nil => simp [urlDecode, hc1, hc2]
    | cons b r => simp [urlDecode, hc1, hc2]

/-- C6 (amended): urlDecode correctly reverses encoding on the cited
examples ("%20" and "+" decode to a space, "John%20Doe" to "John Doe"),
and it is idempotent on strings containing neither '%' nor '+' (such a
string decodes to itself); idempotence fails in general. -/
theorem claim_C6_amended :
    (∀ l : Str, noPctPlus l = true → urlDecode l = l) ∧
    urlDecode "%20".toList = " ".toList ∧
    urlDecode "+".toList = " ".toList ∧
    urlDecode "John%20Doe".toList = "John Doe".toList := by
  refine ⟨?_, by decide, by decide, by decide⟩
  intro l h
  induction l with
  | nil => rfl
  | cons c cs ih =>
    simp only [noPctPlus, List.all_cons, Bool.and_eq_true, Bool.not_eq_eq_eq_not,
      Bool.not_true, beq_eq_false_iff_ne, ne_eq] at h
    obtain ⟨⟨hc1, hc2⟩, hcs⟩ := h
    have ihcs : urlDecode cs = cs := ih (by simpa [noPctPlus] using hcs)
    rw [urlDecode_cons_other c cs hc1 hc2, ihcs]

/-- Witness for C6 (amended): an already fully decoded string is a fixed
point of urlDecode. -/
theorem claim_C6_amended_witness :
    noPctPlus "John Doe".toList = true ∧
    urlDecode "John Doe".toList = "John Doe".toList :=
  ⟨by decide, claim_C6_amended.1 ("John Doe".toList) (by decide)⟩

theorem globMatch_star_singleton (p : List Char) : globMatch ['*'] p = true := by
  induction p with
  | nil => simp [globMatch, List.tails]
  | cons x xs ih =>
    simp only [globMatch, List.tails_cons, List.any_cons] at *
    simp [ih]

theorem globMatch_cons_nil (c : Char) (ps : List Char) (hc : c ≠ '*') :
    globMatch (c :: ps) [] = false := by
  simp [globMatch, hc]

theorem globMatch_cons_cons (c : Char) (ps : List Char) (x : Char) (xs : List Char)
    (hc : c ≠ '*') :
    globMatch (c :: ps) (x :: xs) = (decide (c = x) && globMatch ps xs) := by
  simp [globMatch, hc]

theorem isPrefixOf_append_self (pre l : List Char) :
    pre.isPrefixOf (pre ++ l) = true := by
  induction pre with
  | nil => simp [List.isPrefixOf]
  | cons c cs ih => simp [List.isPrefixOf, ih]

theorem globMatch_append_star (pre : List Char) (h : pre.contains '*' = false) :
    ∀ path : List Char, globMatch (pre ++ ['*']) path = pre.isPrefixOf path := by
  induction pre with
  | nil =>
    intro path
    simp [globMatch_star_singleton, List.isPrefixOf]
  | cons c pr ih =>
    have hc : c ≠ '*' := by
      intro hcc
      simp [hcc] at h
    have hpr : pr.contains '*' = false := by
      simp at h
      simp [h.2]
    intro path
    cases path with
    | nil =>
      rw [List.cons_append, globMatch_cons_nil c (pr ++ ['*']) hc]
      rfl
    | cons x xs =>
      rw [List.cons_append, globMatch_cons_cons c (pr ++ ['*']) x xs hc, ih hpr xs]
      show _ = ((c == x) && pr.isPrefixOf xs)
      by_cases hcx : c = x <;> simp [hcx]

theorem literalDotMatch_no_dot (pre : List Char) (h : pre.contains '.' = false) :
    ∀ s : List Char, literalDotMatch pre s = true ↔ pre = s := by
  induction pre with
  | nil =>
    intro s
    cases s <;> simp [literalDotMatch]
  | cons a as ih =>
    have ha : a ≠ '.' := by
      intro haa
      simp [haa] at h
    have has : as.contains '.' = false := by
      simp at h
      simp [h.2]
    intro s
    cases s with
    | nil => simp [literalDotMatch]
    | cons c cs =>
      simp only [literalDotMatch, charAtomMatch, Bool.and_eq_true, Bool.or_eq_true,
        decide_eq_true_eq, List.cons.injEq]
      rw [ih has cs]
      constructor
      · rintro ⟨hac | hac, hrest⟩
        · exact absurd hac ha
        · exact ⟨hac, hrest⟩
      · rintro ⟨hac, hrest⟩
        exact ⟨Or.inr hac, hrest⟩

theorem map_star_id (pre : List Char) (h : pre.contains '*' = false) :
    pre.map (fun c => if c = '*' then '.' else c) = pre := by
  induction pre with
  | nil => rfl
  | cons c cs ih =>
    have hc : c ≠ '*' := by
      intro hcc
      simp [hcc] at h
    have hcs : cs.contains '*' = false := by
      simp at h
      simp [h.2]
    simp [hc, ih hcs]

/-- C3: the claim states that a pattern containing a wildcard matches a
path exactly when replacing each wildcard by some arbitrary character
sequence can produce the whole path. This is false on the code for
interior wildcards: the pattern is translated by replacing '*' with the
single-character regex atom '.' and appending one '*', so /a/*/b requires
exactly one character between the slashes and /a/xy/b does not match,
although substituting the sequence "xy" for the wildcard produces it. -/
theorem claim_C3_counterexample :
    ("/a/*/b".toList).contains '*' = true ∧
    matchRoute "/a/*/b".toList "/a/xy/b".toList = false ∧
    globMatch "/a/*/b".toList "/a/xy/b".toList = true := by
  decide

theorem contains_eq_false_of_all (p : Char → Bool) (c : Char) (hc : p c = false) :
    ∀ l : List Char, l.all p = true → l.contains c = false := by
  intro l
  induction l with
  | nil => intro _; rfl
  | cons a as ih =>
    intro hl
    simp only [List.all_cons, Bool.and_eq_true] at hl
    have hca : ¬ (c = a) := by
      intro he
      rw [← he] at hl
      rw [hc] at hl
      exact Bool.false_ne_true hl.1
    have hbeq : (c == a) = false := beq_eq_false_iff_ne.mpr hca
    rw [List.contains_cons, hbeq, ih hl.2]
    rfl

/-- C3 (amended): the "wildcard stands for any sequence" reading holds
exactly for patterns whose single wildcard is the final character and
whose prefix is free of every ECMAScript regex metacharacter (so the
translated pattern is the literal prefix followed by the valid regex
suffix ".*", with no quantifier, group, class, anchor or alternation
semantics and no regex_error in play): such a pattern matches precisely
the paths that extend the prefix. For interior wildcards the code instead
matches a single arbitrary character in place of the wildcard, with the
final pattern character repeatable (see the counterexample). -/
theorem claim_C3_amended (pre path : Str)
    (h : pre.all regexPlainChar = true) :
    matchRoute (pre ++ ['*']) path = globMatch (pre ++ ['*']) path := by
  have h1 : pre.contains '*' = false :=
    contains_eq_false_of_all regexPlainChar '*' (by decide) pre h
  have h2 : pre.contains '.' = false :=
    contains_eq_false_of_all regexPlainChar '.' (by decide) pre h
  rw [globMatch_append_star pre h1 path]
  by_cases heq : pre ++ ['*'] = path
  · rw [matchRoute, if_pos heq, ← heq, isPrefixOf_append_self]
  · rw [matchRoute, if_neg heq, if_pos (by simp)]
    rw [List.map_append]
    have hmap1 : (['*'] : List Char).map (fun c => if c = '*' then '.' else c) = ['.'] := rfl
    rw [hmap1, map_star_id pre h1]
    simp only [regexStarMatch, List.getLast?_concat, List.dropLast_concat]
    have hall : (path.drop pre.length).all (charAtomMatch '.') = true := by
      simp [charAtomMatch]
    rw [hall, Bool.and_true]
    rw [Bool.eq_iff_iff, literalDotMatch_no_dot pre h2, List.isPrefixOf_iff_prefix,
      List.prefix_iff_eq_take]

/-- Witness for C3 (amended): on the trailing-wildcard pattern /files/*
the code and the any-sequence reading agree. -/
theorem claim_C3_amended_witness :
    matchRoute ("/files/".toList ++ ['*']) "/files/app.css".toList
      = globMatch ("/files/".toList ++ ['*']) "/files/app.css".toList :=
  claim_C3_amended ("/files/".toList) ("/files/app.css".toList) (by decide)

theorem getAssoc_setAssoc_ne (m : List (Str × Str)) (k1 k2 v : Str) (h : k1 ≠ k2) :
    getAssoc (setAssoc m k1 v) k2 = getAssoc m k2 := by
  induction m with
  | nil => simp [setAssoc, getAssoc, h]
  | cons p rest ih =>
    by_cases hp : p.1 = k1
    · simp only [setAssoc, hp, if_pos rfl]
      simp [getAssoc, h, hp]
    · simp only [setAssoc, hp, if_neg hp]
      by_cases hp2 : p.1 = k2
      · simp [getAssoc, hp2]
      · simp [getAssoc, hp2, ih]

/-- C4: the claim states that an OPTIONS route only matches requests whose
method is registered to the same path pattern. This is false on the code:
the dispatch condition is simply (route.method == request method ||
route.method == OPTIONS), so a server with only an OPTIONS route on /x
dispatches a GET /x request to that route's handler, although GET is not
registered to /x — where the claim predicts the not-found handler. -/
theorem claim_C4_counterexample :
    routeConsidered optRoute reqGetX = true ∧
    specConsidered cfgC4.routes optRoute reqGetX = false ∧
    (processHttpRequest cfgC4 reqGetX HttpResponse.init).body = "options route ran".toList ∧
    (processHttpRequest cfgC4 reqGetX HttpResponse.init).status_code ≠ StatusCode.NOT_FOUND := by
  refine ⟨by decide, by decide, by decide, by decide⟩

/-- C4 (amended): a route is considered for dispatch exactly when its
method equals the request method or its method is OPTIONS — an OPTIONS
route matches requests of every method, with no requirement that the
method be registered to the pattern; a route with a non-OPTIONS method is
never dispatched for a request of a different method. -/
theorem claim_C4_amended (routes : List Route) (req : HttpRequest) (r : Route) :
    (findRoute routes req = some r →
      (r.method = req.method ∨ r.method = Method.OPTIONS) ∧
        matchRoute r.path req.path = true) ∧
    (r ∈ routes → r.method = Method.OPTIONS → matchRoute r.path req.path = true →
      (findRoute routes req).isSome = true) ∧
    (r.method ≠ req.method → r.method ≠ Method.OPTIONS →
      findRoute routes req ≠ some r) := by
  refine ⟨?_, ?_, ?_⟩
  · intro h
    have hp := List.find?_some h
    simp only [routeConsidered, Bool.and_eq_true, Bool.or_eq_true, beq_iff_eq] at hp
    exact ⟨hp.1, hp.2⟩
  · intro hm hopt hmatch
    unfold findRoute
    rw [List.find?_isSome]
    exact ⟨r, hm, by simp [routeConsidered, hopt, hmatch]⟩
  · intro h1 h2 hfind
    have hp := List.find?_some hfind
    simp only [routeConsidered, Bool.and_eq_true, Bool.or_eq_true, beq_iff_eq] at hp
    rcases hp.1 with h | h
    · exact h1 h
    · exact h2 h

/-- Witness for C4 (amended): the lone OPTIONS route on /x is dispatched
for a GET /x request. -/
theorem claim_C4_amended_witness :
    (findRoute cfgC4.routes reqGetX).isSome = true :=
  (claim_C4_amended cfgC4.routes reqGetX optRoute).2.1
    (by simp [cfgC4]) rfl (by decide)

/-- C8: every failure thrown while the middleware chain, a matched route
handler, or the not-found handler runs is caught by the top-level error
handler of processHttpRequest; with the default error handler the caught
failure always yields an INTERNAL_SERVER_ERROR response with the
plain-text body "Internal Server Error", a matching Content-Type and
Content-Length, and nothing propagates past processHttpRequest. -/
theorem claim_C8 (cfg : ServerConfig) (req : HttpRequest) (res : HttpResponse)
    (hEh : cfg.error_handler = defaultErrorHandler)
    (e : Str) (resT : HttpResponse)
    (hFail : processHttpRequestE cfg req res = .error (e, resT)) :
    processHttpRequest cfg req res = defaultErrorHandler e req resT ∧
    (processHttpRequest cfg req res).status_code = StatusCode.INTERNAL_SERVER_ERROR ∧
    (processHttpRequest cfg req res).body = "Internal Server Error".toList ∧
    (processHttpRequest cfg req res).getHeader "Content-Type".toList
      = "text/plain; charset=utf-8".toList ∧
    (processHttpRequest cfg req res).getHeader "Content-Length".toList = "21".toList := by
  have hmain : processHttpRequest cfg req res = defaultErrorHandler e req resT := by
    unfold processHttpRequest
    rw [hFail, hEh]
  refine ⟨hmain, ?_, ?_, ?_, ?_⟩ <;> rw [hmain]
  · simp [defaultErrorHandler, HttpResponse.setTextContent, HttpResponse.setBody,
      HttpResponse.setContentLength, HttpResponse.setHeader, HttpResponse.setStatusCode]
  · simp [defaultErrorHandler, HttpResponse.setTextContent, HttpResponse.setBody,
      HttpResponse.setContentLength, HttpResponse.setHeader, HttpResponse.setStatusCode]
  · simp only [defaultErrorHandler, HttpResponse.setTextContent, HttpResponse.setBody,
      HttpResponse.setContentLength, HttpResponse.setHeader, HttpResponse.setStatusCode,
      HttpResponse.getHeader]
    rw [getAssoc_setAssoc_ne _ _ _ _ (by decide), getAssoc_setAssoc_self]
    rfl
  · simp only [defaultErrorHandler, HttpResponse.setTextContent, HttpResponse.setBody,
      HttpResponse.setContentLength, HttpResponse.setHeader, HttpResponse.setStatusCode,
      HttpResponse.getHeader]
    rw [getAssoc_setAssoc_self]
    decide

/-- Witness for C8: a server whose only middleware throws still produces
the default INTERNAL_SERVER_ERROR response. -/
theorem claim_C8_witness :
    (processHttpRequest cfgC8 HttpRequest.init HttpResponse.init).status_code
      = StatusCode.INTERNAL_SERVER_ERROR :=
  (claim_C8 cfgC8 HttpRequest.init HttpResponse.init rfl
    ("handler failure".toList) HttpResponse.init rfl).2.1
